import Mathlib

/-!
Verification of the interruption-classification filter of the
`agents-assignment` repository.

The classifier `test_filter_logic` (from `test_interruption_logic.py`) is
embedded shallowly: Python string operations (`str.lower`, `str.split`,
`str.strip`) are modelled as executable Lean functions over the character
lists of `String`, and the word sets of `interruption_config.py` are
modelled as lists of strings with decidable membership.
-/

/-- The three actions the filter can return (the strings `"SWALLOW"`,
`"RESPOND"`, `"INTERRUPT"` of the Python code). -/
inductive FilterAction where
  | SWALLOW
  | RESPOND
  | INTERRUPT
deriving DecidableEq, Repr

/-- ASCII whitespace recognised by Python's argument-less `str.split` /
`str.strip`: space, tab, newline, carriage return, vertical tab, form feed. -/
def pyIsSpace (c : Char) : Bool :=
  c == ' ' || c == '\t' || c == '\n' || c == '\r' || c == Char.ofNat 11 || c == Char.ofNat 12

/-- Python's `str.lower` (ASCII fragment, sufficient for the configured
word lists). -/
def pyLower (s : String) : String :=
  String.mk (s.data.map Char.toLower)

/-- Remove leading and trailing characters satisfying `p`, as Python's
`str.strip(chars)` does. -/
def stripList (p : Char → Bool) (cs : List Char) : List Char :=
  ((cs.dropWhile p).reverse.dropWhile p).reverse

/-- `t.strip()` of Python: strip whitespace from both ends. -/
def pyStripWs (s : String) : String :=
  String.mk (stripList pyIsSpace s.data)

/-- The punctuation characters stripped from each token's edges,
`.,!?;:()[]"'` in the source (line 64 of `test_interruption_logic.py`). -/
def PUNCT : List Char :=
  ['.', ',', '!', '?', ';', ':', '(', ')', '[', ']', '\"', Char.ofNat 39]

/-- `t.strip(".,!?;:()[]\"'")` of the source: strip the punctuation set from
both ends of a token. -/
def pyStripPunct (s : String) : String :=
  String.mk (stripList (fun c => PUNCT.contains c) s.data)

/-- Helper for `pySplit`: walk the characters, accumulating the current
(reversed) token in `acc`, flushing it at each whitespace run. -/
def splitAux : List Char → List Char → List String
  | [], acc => if acc = [] then [] else [String.mk acc.reverse]
  | c :: cs, acc =>
    if pyIsSpace c then
      if acc = [] then splitAux cs [] else String.mk acc.reverse :: splitAux cs []
    else
      splitAux cs (c :: acc)

/-- Python's argument-less `str.split`: split on runs of whitespace,
discarding empty pieces. -/
def pySplit (s : String) : List String :=
  splitAux s.data []

/-- `IGNORE_WORDS` of `interruption_config.py` (identical set mirrored in
`test_interruption_logic.py`). -/
def IGNORE_WORDS : List String :=
  ["yeah", "ok", "okay", "hmm", "uh-huh", "right", "yep", "mmhmm",
   "sure", "understood", "got it", "uh", "um", "ah", "yeah yeah",
   "absolutely", "definitely", "certainly", "sounds good", "i see",
   "i know", "i get it", "makes sense", "got ya", "no kidding",
   "you bet", "for sure", "all right", "alright"]

/-- `INTERRUPT_WORDS` of `interruption_config.py`. -/
def INTERRUPT_WORDS : List String :=
  ["stop", "wait", "no", "hold", "cancel", "pause",
   "hold on", "wait wait", "one second", "one sec", "just a sec",
   "hang on", "slow down", "repeat that", "what", "sorry", "excuse me",
   "never mind", "never", "don\x27t", "don\x27t say that"]

/-- `FILLER_WORDS` of `interruption_config.py`. -/
def FILLER_WORDS : List String :=
  ["but", "and", "or", "like", "you know", "i mean", "actually",
   "well", "so", "anyway", "basically", "essentially", "practically",
   "kind of", "sort of", "somehow", "somewhat", "quite", "really",
   "very", "pretty", "honestly", "seriously", "literally"]

/-- The stop-word set `{"a", "an", "the", "to", "in", "on", "at"}` filtered
out at line 67 of `test_interruption_logic.py`. -/
def STOP_WORDS : List String :=
  ["a", "an", "the", "to", "in", "on", "at"]

/-- The token-processing steps of `test_filter_logic`, applied to the list of
whitespace-split pieces: keep pieces whose whitespace-strip is non-empty,
strip punctuation from each, then drop empty tokens and stop words
(lines 64 and 67 of the source, after the `split()`). -/
def tokensOfPieces (pieces : List String) : List String :=
  ((pieces.filter (fun t => !decide (pyStripWs t = ""))).map pyStripPunct).filter
    (fun t => !decide (t = "") && !decide (t ∈ STOP_WORDS))

/-- The full tokenization of `test_filter_logic` (lines 64 and 67):
lowercase, whitespace-split, punctuation-strip, drop empties and stop words. -/
def tokenize (transcript : String) : List String :=
  tokensOfPieces (pySplit (pyLower transcript))

/-- Python's `repr` of a list of strings, used by the f-strings in the
reasons (e.g. `['stop']`). -/
def pyReprList (l : List String) : String :=
  "[" ++ String.intercalate ", " (l.map (fun t => "\x27" ++ t ++ "\x27")) ++ "]"

/-- The decision chain of `test_filter_logic` (lines 69-91), parameterized by
the three word sets (the source reads them from module-level globals; the
set union `IGNORE_WORDS | FILLER_WORDS` of line 84 is modelled by membership
in the list append). -/
def filterLogicWith (ignoreW interruptW fillerW : List String)
    (transcript : String) (agent_speaking : Bool) : FilterAction × String :=
  let tokens := tokenize transcript
  if tokens = [] then
    (FilterAction.SWALLOW, "No tokens (VAD blip)")
  else if agent_speaking = false then
    (FilterAction.RESPOND, "Agent is silent - treat as normal input")
  else if tokens.any (fun tok => decide (tok ∈ interruptW)) then
    (FilterAction.INTERRUPT, "Contains interrupt words: "
      ++ pyReprList (tokens.filter (fun t => decide (t ∈ interruptW))))
  else if tokens.all (fun tok => decide (tok ∈ ignoreW ++ fillerW)) then
    (FilterAction.SWALLOW, "Only passive/filler words: " ++ pyReprList tokens)
  else
    (FilterAction.INTERRUPT, "Mixed content detected: " ++ pyReprList tokens)

/-- `test_filter_logic(transcript, agent_speaking)` of
`test_interruption_logic.py`, with the concrete configured word sets. -/
def test_filter_logic (transcript : String) (agent_speaking : Bool) : FilterAction × String :=
  filterLogicWith IGNORE_WORDS INTERRUPT_WORDS FILLER_WORDS transcript agent_speaking

/-- `MICRO_DEBOUNCE_MS` of `interruption_config.py` (line 38). -/
def MICRO_DEBOUNCE_MS : Nat := 150

/-- Modelled from the spec: the per-session `DebounceState` of §3; its single
slot holds the last speaking-context decision time, `none` when `Idle` (a new
speaking epoch). The code that owns this state (`agent_activity.py`) is not
among the provided source files. -/
structure DebounceState where
  lastDecisionTime : Option Nat
deriving DecidableEq, Repr

/-- Modelled from the spec: the `Classify` operation of §4.2 with the debounce
gating of step 6. The content-based steps 1-5 are the source's
`test_filter_logic`; the debounce gating lives in `agent_activity.py`, which
is not among the provided source files, so it is taken faithfully from the
spec's words: gating applies only to speaking-context outcomes (non-empty
tokens while the agent speaks); within `MICRO_DEBOUNCE_MS` of the last
recorded decision the action is overridden to `Swallow`, otherwise `now` is
recorded as the new last decision time. -/
def Classify (transcript : String) (agentSpeaking : Bool) (now : Nat)
    (debounce : DebounceState) : (FilterAction × String) × DebounceState :=
  let base := test_filter_logic transcript agentSpeaking
  if tokenize transcript = [] ∨ agentSpeaking = false then
    (base, debounce)
  else
    match debounce.lastDecisionTime with
    | none => (base, ⟨some now⟩)
    | some last =>
      if now - last < MICRO_DEBOUNCE_MS then
        ((FilterAction.SWALLOW,
          "debounced: duplicate within " ++ toString MICRO_DEBOUNCE_MS
            ++ "ms of prior decision"),
         debounce)
      else
        (base, ⟨some now⟩)

/-- A run of the implemented classifier over a sequence of calls; each call
carries a transcript, the agent-speaking flag, and a call timestamp. The
source `test_filter_logic` reads no clock and no session state, so a run is
the per-call application of the function. -/
def runSession (calls : List (String × Bool × Nat)) : List (FilterAction × String) :=
  calls.map (fun c => test_filter_logic c.1 c.2.1)

/-- The single-word entries of a phrase set: the entries that contain no
space character (multi-word entries such as `"hold on"` contain one). -/
def singleWordEntries (l : List String) : List String :=
  l.filter (fun p => !decide (' ' ∈ p.data))

/-! ## Theorems -/

/-- Characters surviving `stripList` were characters of the input. -/
theorem mem_stripList {c : Char} {p : Char → Bool} {cs : List Char}
    (h : c ∈ stripList p cs) : c ∈ cs := by
  unfold stripList at h
  rw [List.mem_reverse] at h
  have h2 := (List.dropWhile_suffix p).sublist.subset h
  rw [List.mem_reverse] at h2
  exact (List.dropWhile_suffix p).sublist.subset h2

/-- Every piece produced by `splitAux` consists of non-whitespace characters
(provided the accumulator does). -/
theorem splitAux_no_space : ∀ (cs acc : List Char),
    (∀ c ∈ acc, pyIsSpace c = false) →
    ∀ s ∈ splitAux cs acc, ∀ c ∈ s.data, pyIsSpace c = false := by
  intro cs
  induction cs with
  | nil =>
    intro acc hacc s hs c hc
    by_cases h : acc = []
    · simp [splitAux, h] at hs
    · rw [splitAux, if_neg h, List.mem_singleton] at hs
      subst hs
      exact hacc c (List.mem_reverse.mp hc)
  | cons a as ih =>
    intro acc hacc s hs c hc
    by_cases hsp : pyIsSpace a = true
    · by_cases h : acc = []
      · rw [splitAux, if_pos hsp, if_pos h] at hs
        exact ih [] (by intro x hx; cases hx) s hs c hc
      · rw [splitAux, if_pos hsp, if_neg h] at hs
        rcases List.mem_cons.mp hs with rfl | hs2
        · exact hacc c (List.mem_reverse.mp hc)
        · exact ih [] (by intro x hx; cases hx) s hs2 c hc
    · rw [splitAux, if_neg hsp] at hs
      refine ih (a :: acc) ?_ s hs c hc
      intro x hx
      rcases List.mem_cons.mp hx with rfl | hx2
      · exact Bool.eq_false_iff.mpr hsp
      · exact hacc x hx2

/-- No token produced by the tokenizer contains a whitespace character:
the whitespace split runs before any phrase lookup. -/
theorem tokenize_no_space (t : String) :
    ∀ tok ∈ tokenize t, ∀ c ∈ tok.data, pyIsSpace c = false := by
  intro tok htok c hc
  unfold tokenize tokensOfPieces at htok
  have h1 := List.mem_of_mem_filter htok
  rw [List.mem_map] at h1
  obtain ⟨p, hp, rfl⟩ := h1
  have hp2 := List.mem_of_mem_filter hp
  unfold pySplit at hp2
  have hchar : c ∈ p.data := mem_stripList (by simpa [pyStripPunct] using hc)
  exact splitAux_no_space _ [] (by intro x hx; cases hx) p hp2 c hchar

/-- A string without whitespace characters is in a phrase set iff it is among
its single-word entries. -/
theorem mem_singleWordEntries_iff {tok : String} (l : List String)
    (hns : ∀ c ∈ tok.data, pyIsSpace c = false) :
    tok ∈ l ↔ tok ∈ singleWordEntries l := by
  constructor
  · intro h
    refine List.mem_filter.mpr ⟨h, ?_⟩
    have hsp : ' ' ∉ tok.data := by
      intro hm
      have := hns ' ' hm
      simp [pyIsSpace] at this
    simp [hsp]
  · exact List.mem_of_mem_filter

/-- `List.any` is determined by the predicate's values on the members. -/
theorem any_congr_on {α : Type} (l : List α) (p q : α → Bool)
    (h : ∀ x ∈ l, p x = q x) : l.any p = l.any q := by
  induction l with
  | nil => rfl
  | cons a as ih =>
    rw [List.any_cons, List.any_cons, h a (List.mem_cons_self a as),
      ih (fun x hx => h x (List.mem_cons_of_mem a hx))]

/-- `List.all` is determined by the predicate's values on the members. -/
theorem all_congr_on {α : Type} (l : List α) (p q : α → Bool)
    (h : ∀ x ∈ l, p x = q x) : l.all p = l.all q := by
  induction l with
  | nil => rfl
  | cons a as ih =>
    rw [List.all_cons, List.all_cons, h a (List.mem_cons_self a as),
      ih (fun x hx => h x (List.mem_cons_of_mem a hx))]

/-- Character-list view of string concatenation. -/
theorem data_append_str (a b : String) : (a ++ b).data = a.data ++ b.data := by
  cases a
  cases b
  rfl

/-- `pySplit` composed with `pyLower`, at the character-list level. -/
theorem pySplit_pyLower (s : String) :
    pySplit (pyLower s) = splitAux (s.data.map Char.toLower) [] := rfl

/-- Splitting distributes over a separator space. -/
theorem splitAux_append_space (ys : List Char) : ∀ (xs acc : List Char),
    splitAux (xs ++ ' ' :: ys) acc = splitAux xs acc ++ splitAux ys [] := by
  have hsp0 : pyIsSpace ' ' = true := rfl
  intro xs
  induction xs with
  | nil =>
    intro acc
    by_cases h : acc = []
    · subst h
      simp [splitAux, hsp0]
    · simp [splitAux, hsp0, h]
  | cons a as ih =>
    intro acc
    by_cases hsp : pyIsSpace a = true
    · by_cases h : acc = []
      · subst h
        simp [splitAux, hsp, ih]
      · simp [splitAux, hsp, h, ih]
    · simp [splitAux, hsp, ih]

/-- The post-split token pipeline distributes over list concatenation. -/
theorem tokensOfPieces_append (x y : List String) :
    tokensOfPieces (x ++ y) = tokensOfPieces x ++ tokensOfPieces y := by
  simp [tokensOfPieces, List.filter_append, List.map_append]

/-- Tokenization distributes over a separator space between two transcripts. -/
theorem tokenize_append_space (a b : String) :
    tokenize (a ++ " " ++ b) = tokenize a ++ tokenize b := by
  have hdata : (a ++ " " ++ b).data = a.data ++ ' ' :: b.data := by
    rw [data_append_str, data_append_str]
    simp [show (" " : String).data = [' '] from rfl]
  unfold tokenize
  rw [pySplit_pyLower, pySplit_pyLower, pySplit_pyLower, hdata]
  simp only [List.map_append, List.map_cons, show Char.toLower ' ' = ' ' from rfl]
  rw [splitAux_append_space, tokensOfPieces_append]

/-- A stop word on its own tokenizes to nothing. -/
theorem tokenize_stopword {w : String} (h : w ∈ STOP_WORDS) : tokenize w = [] := by
  fin_cases h <;> decide

/-- The decision chain depends on the transcript only through its tokens. -/
theorem filterLogicWith_tokens_congr (ig iw fl : List String) (t1 t2 : String)
    (sp : Bool) (h : tokenize t1 = tokenize t2) :
    filterLogicWith ig iw fl t1 sp = filterLogicWith ig iw fl t2 sp := by
  unfold filterLogicWith
  rw [h]

/-- C1: if the agent is speaking and at least one token of the transcript
(after tokenization and stop-word removal) is an interrupt phrase, the
classifier returns `INTERRUPT`, no matter what the other tokens are. -/
theorem interrupt_priority_law (transcript : String)
    (h : ∃ tok ∈ tokenize transcript, tok ∈ INTERRUPT_WORDS) :
    (test_filter_logic transcript true).1 = FilterAction.INTERRUPT := by
  obtain ⟨tok, htok, hmem⟩ := h
  have hne : ¬ tokenize transcript = [] := by
    intro he
    rw [he] at htok
    exact absurd htok (List.not_mem_nil tok)
  have hany : (tokenize transcript).any (fun tok => decide (tok ∈ INTERRUPT_WORDS)) = true := by
    rw [List.any_eq_true]
    exact ⟨tok, htok, by simpa using hmem⟩
  simp [test_filter_logic, filterLogicWith, hne, hany]

/-- Witness for C1: `"Yeah but wait a second"` while speaking is classified
`INTERRUPT` by the interrupt-priority law. -/
theorem interrupt_priority_law_witness :
    (test_filter_logic "Yeah but wait a second" true).1 = FilterAction.INTERRUPT :=
  interrupt_priority_law "Yeah but wait a second" ⟨"wait", by decide, by decide⟩

/-- C2: if the agent is speaking, no token is an interrupt phrase, and every
token is an ignore phrase or a filler phrase, the classifier returns
`SWALLOW`. -/
theorem all_acceptable_swallow (transcript : String)
    (h1 : ∀ tok ∈ tokenize transcript, tok ∉ INTERRUPT_WORDS)
    (h2 : ∀ tok ∈ tokenize transcript, tok ∈ IGNORE_WORDS ∨ tok ∈ FILLER_WORDS) :
    (test_filter_logic transcript true).1 = FilterAction.SWALLOW := by
  by_cases hne : tokenize transcript = []
  · simp [test_filter_logic, filterLogicWith, hne]
  · have hany : (tokenize transcript).any (fun tok => decide (tok ∈ INTERRUPT_WORDS)) = false := by
      rw [Bool.eq_false_iff]
      intro hc
      rw [List.any_eq_true] at hc
      obtain ⟨x, hx, hxd⟩ := hc
      exact h1 x hx (by simpa using hxd)
    have hall : (tokenize transcript).all
        (fun tok => decide (tok ∈ IGNORE_WORDS ++ FILLER_WORDS)) = true := by
      rw [List.all_eq_true]
      intro x hx
      simpa [List.mem_append] using h2 x hx
    simp only [test_filter_logic, filterLogicWith, if_neg hne]
    rw [if_neg (by simp), if_neg (by simp [hany]), if_pos hall]

/-- Witness for C2: `"Yeah... okay... uh-huh"` while speaking is classified
`SWALLOW` by the all-acceptable rule. -/
theorem all_acceptable_swallow_witness :
    (test_filter_logic "Yeah... okay... uh-huh" true).1 = FilterAction.SWALLOW :=
  all_acceptable_swallow "Yeah... okay... uh-huh" (by decide) (by decide)

/-- C3: if the agent is speaking, no token is an interrupt phrase, and some
token is in none of the three word sets, the classifier returns `INTERRUPT`
(mixed-content rule). -/
theorem mixed_content_interrupt (transcript : String)
    (h1 : ∀ tok ∈ tokenize transcript, tok ∉ INTERRUPT_WORDS)
    (h2 : ∃ tok ∈ tokenize transcript,
      tok ∉ IGNORE_WORDS ∧ tok ∉ FILLER_WORDS ∧ tok ∉ INTERRUPT_WORDS) :
    (test_filter_logic transcript true).1 = FilterAction.INTERRUPT := by
  obtain ⟨tok, htok, hig, hfl, _⟩ := h2
  have hne : ¬ tokenize transcript = [] := by
    intro he
    rw [he] at htok
    exact absurd htok (List.not_mem_nil tok)
  have hany : (tokenize transcript).any (fun tok => decide (tok ∈ INTERRUPT_WORDS)) = false := by
    rw [Bool.eq_false_iff]
    intro hc
    rw [List.any_eq_true] at hc
    obtain ⟨x, hx, hxd⟩ := hc
    exact h1 x hx (by simpa using hxd)
  have hall : (tokenize transcript).all
      (fun tok => decide (tok ∈ IGNORE_WORDS ++ FILLER_WORDS)) = false := by
    rw [Bool.eq_false_iff]
    intro hc
    rw [List.all_eq_true] at hc
    have := hc tok htok
    rw [decide_eq_true_iff, List.mem_append] at this
    rcases this with h | h
    · exact hig h
    · exact hfl h
  simp only [test_filter_logic, filterLogicWith, if_neg hne]
  rw [if_neg (by simp), if_neg (by simp [hany]), if_neg (by rw [hall]; exact Bool.false_ne_true)]

/-- Witness for C3: `"Yeah tell me more"` while speaking is classified
`INTERRUPT` by the mixed-content rule. -/
theorem mixed_content_interrupt_witness :
    (test_filter_logic "Yeah tell me more" true).1 = FilterAction.INTERRUPT :=
  mixed_content_interrupt "Yeah tell me more" (by decide)
    ⟨"tell", by decide, by decide, by decide, by decide⟩

/-- C5: a transcript that tokenizes to zero tokens (empty, whitespace-only,
punctuation-only input) is classified `SWALLOW` for both values of the
agent-speaking flag. -/
theorem empty_tokens_swallow (transcript : String) (agent_speaking : Bool)
    (h : tokenize transcript = []) :
    (test_filter_logic transcript agent_speaking).1 = FilterAction.SWALLOW := by
  simp [test_filter_logic, filterLogicWith, h]

/-- Witness for C5: `"... ... ..."` while speaking and `""` while silent are
both classified `SWALLOW` by the empty-result rule. -/
theorem empty_tokens_swallow_witness :
    (test_filter_logic "... ... ..." true).1 = FilterAction.SWALLOW ∧
      (test_filter_logic "" false).1 = FilterAction.SWALLOW :=
  ⟨empty_tokens_swallow "... ... ..." true (by decide),
   empty_tokens_swallow "" false (by decide)⟩

/-- C6: when the agent is not speaking, every transcript with a non-empty
token list is classified `RESPOND`, whatever the tokens are. -/
theorem silent_agent_respond (transcript : String)
    (h : tokenize transcript ≠ []) :
    (test_filter_logic transcript false).1 = FilterAction.RESPOND := by
  simp [test_filter_logic, filterLogicWith, h]

/-- Witness for C6: `"Cancel that"` while the agent is silent is classified
`RESPOND`. -/
theorem silent_agent_respond_witness :
    (test_filter_logic "Cancel that" false).1 = FilterAction.RESPOND :=
  silent_agent_respond "Cancel that" (by decide)

/-- C9: the six literal scenarios of the spec, evaluated against the
classifier with the concrete configured word sets. -/
theorem literal_scenarios :
    (test_filter_logic "Yeah... okay... uh-huh" true).1 = FilterAction.SWALLOW ∧
    (test_filter_logic "Yeah" false).1 = FilterAction.RESPOND ∧
    (test_filter_logic "Stop" true).1 = FilterAction.INTERRUPT ∧
    (test_filter_logic "Yeah but wait a second" true).1 = FilterAction.INTERRUPT ∧
    (test_filter_logic "" true).1 = FilterAction.SWALLOW ∧
    (test_filter_logic "... ... ..." true).1 = FilterAction.SWALLOW := by
  decide

/-- C4: two calls of the same session, both while the agent speaks, the first
from the `Idle` state and making a speaking-context decision, the second less
than `MICRO_DEBOUNCE_MS` after it: the first call returns its content-based
result and the second is overridden to `SWALLOW`, whatever its content rules
would have produced. -/
theorem debounce_law (t1 t2 : String) (n1 n2 : Nat)
    (h1 : tokenize t1 ≠ [])
    (hle : n1 ≤ n2) (hlt : n2 - n1 < MICRO_DEBOUNCE_MS) :
    (Classify t1 true n1 ⟨none⟩).1 = test_filter_logic t1 true ∧
    ((Classify t2 true n2 (Classify t1 true n1 ⟨none⟩).2).1).1 = FilterAction.SWALLOW := by
  have _hle := hle
  have hc1 : Classify t1 true n1 ⟨none⟩ = (test_filter_logic t1 true, ⟨some n1⟩) := by
    simp [Classify, h1]
  refine ⟨by rw [hc1], ?_⟩
  rw [hc1]
  by_cases h2 : tokenize t2 = []
  · simp [Classify, h2, test_filter_logic, filterLogicWith]
  · simp [Classify, h2, hlt]

/-- Witness for C4: two `"Stop"` calls at times 0 and 100 of a fresh session;
the first interrupts, the second is debounced to `SWALLOW`. -/
theorem debounce_law_witness :
    (Classify "Stop" true 0 ⟨none⟩).1 = test_filter_logic "Stop" true ∧
    ((Classify "Stop" true 100 (Classify "Stop" true 0 ⟨none⟩).2).1).1 =
      FilterAction.SWALLOW :=
  debounce_law "Stop" "Stop" 0 100 (by decide) (by decide) (by decide)

/-- C7: stop-word invariance: inserting (equivalently, removing) a stop word
as a whitespace-separated word anywhere in a transcript never changes the
resulting action, for either value of the agent-speaking flag. -/
theorem stopword_invariance (s1 s2 w : String) (agent_speaking : Bool)
    (h : w ∈ STOP_WORDS) :
    (test_filter_logic (s1 ++ " " ++ w ++ " " ++ s2) agent_speaking).1 =
      (test_filter_logic (s1 ++ " " ++ s2) agent_speaking).1 := by
  have htok : tokenize (s1 ++ " " ++ w ++ " " ++ s2) = tokenize (s1 ++ " " ++ s2) := by
    rw [tokenize_append_space (s1 ++ " " ++ w) s2, tokenize_append_space s1 w,
      tokenize_stopword h, List.append_nil, tokenize_append_space s1 s2]
  unfold test_filter_logic
  exact congrArg Prod.fst (filterLogicWith_tokens_congr _ _ _ _ _ _ htok)

/-- Witness for C7: inserting `"the"` between `"Yeah"` and `"okay"` leaves the
action unchanged. -/
theorem stopword_invariance_witness :
    (test_filter_logic ("Yeah" ++ " " ++ "the" ++ " " ++ "okay") true).1 =
      (test_filter_logic ("Yeah" ++ " " ++ "okay") true).1 :=
  stopword_invariance "Yeah" "okay" "the" true (by decide)

/-- C8: multi-word phrase entries are inert: tokens never contain a space, so
for every transcript and flag the classifier with the configured sets returns
the same action as the classifier with all multi-word entries removed from
the three sets. -/
theorem multiword_entries_inert (transcript : String) (agent_speaking : Bool) :
    (test_filter_logic transcript agent_speaking).1 =
      (filterLogicWith (singleWordEntries IGNORE_WORDS)
        (singleWordEntries INTERRUPT_WORDS) (singleWordEntries FILLER_WORDS)
        transcript agent_speaking).1 := by
  have hns := tokenize_no_space transcript
  have hany : (tokenize transcript).any (fun tok => decide (tok ∈ INTERRUPT_WORDS)) =
      (tokenize transcript).any
        (fun tok => decide (tok ∈ singleWordEntries INTERRUPT_WORDS)) := by
    apply any_congr_on
    intro x hx
    rw [decide_eq_decide]
    exact mem_singleWordEntries_iff _ (hns x hx)
  have hall : (tokenize transcript).all
      (fun tok => decide (tok ∈ IGNORE_WORDS ++ FILLER_WORDS)) =
      (tokenize transcript).all (fun tok =>
        decide (tok ∈ singleWordEntries IGNORE_WORDS ++ singleWordEntries FILLER_WORDS)) := by
    apply all_congr_on
    intro x hx
    rw [decide_eq_decide, List.mem_append, List.mem_append]
    exact or_congr (mem_singleWordEntries_iff _ (hns x hx))
      (mem_singleWordEntries_iff _ (hns x hx))
  by_cases he : tokenize transcript = []
  · simp [test_filter_logic, filterLogicWith, he]
  · cases agent_speaking
    · simp [test_filter_logic, filterLogicWith, he]
    · have hneq : ¬(true = false) := by simp
      simp only [test_filter_logic, filterLogicWith, if_neg he, if_neg hneq]
      rw [hany, hall]
      by_cases h1 : (tokenize transcript).any
          (fun tok => decide (tok ∈ singleWordEntries INTERRUPT_WORDS)) = true
      · rw [if_pos h1, if_pos h1]
      · rw [if_neg h1, if_neg h1]

/-- C10: determinism of the implemented classifier: in any run, the result of
a call is exactly `test_filter_logic` of its transcript and flag, so two
calls with equal transcript and equal flag return identical (action, reason)
pairs, independent of their timestamps, their position in the run, and all
other calls of the session. -/
theorem classifier_deterministic (t : String) (s : Bool) (n n' : Nat)
    (pre post pre' post' : List (String × Bool × Nat)) :
    (runSession (pre ++ (t, s, n) :: post))[pre.length]? = some (test_filter_logic t s) ∧
    (runSession (pre ++ (t, s, n) :: post))[pre.length]? =
      (runSession (pre' ++ (t, s, n') :: post'))[pre'.length]? := by
  have key : ∀ (l1 l2 : List (String × Bool × Nat)) (m : Nat),
      (runSession (l1 ++ (t, s, m) :: l2))[l1.length]? = some (test_filter_logic t s) := by
    intro l1 l2 m
    induction l1 with
    | nil => simp [runSession]
    | cons a as ih => simpa [runSession] using ih
  exact ⟨key pre post n, by rw [key pre post n, key pre' post' n']⟩
